import Mathlib

/-!
# Verification of the cut-it-out interactive mask editor

Shallow embedding of the mask-editing core of the repository:
the zustand store (`src/store/useAppStore.ts`) and the canvas component
(`src/components/CanvasViewer.tsx`).

Conventions of the embedding:
* JavaScript numbers that hold integral values (pixel channels, history
  indices) become `Nat`/`Int`; fractional UI values (zoom, brush size,
  opacities) and color averages become `Rat`, i.e. exact arithmetic.
* `string | null` becomes `Option String`; assigning `undefined` from an
  out-of-bounds array read becomes `none`.
* A raster (`ImageData`) is a pixel count `n` together with a function
  `Nat → Pixel`; the source loops over flattened pixel indices `0..n-1`.
* The JS comparison `Math.sqrt d < 80` on a nonnegative `d` is embedded as
  `d < 6400`; the bridging lemma `sqrt_lt_tol` below justifies this over ℝ.
-/

namespace CutItOut

/-- Brush mode, `'erase' | 'restore'` in `useAppStore.ts`. -/
inductive BrushMode
  | erase
  | restore
deriving DecidableEq, Repr

/-- One RGBA pixel of an `ImageData` buffer; each channel is a byte value.
The embedding does not restrict channels to `< 256`: the source reads them
from `Uint8ClampedArray`s where that bound is automatic, and no claim
depends on it. -/
structure Pixel where
  r : Nat
  g : Nat
  b : Nat
  a : Nat
deriving DecidableEq, Repr

/-- The zustand store state of `useAppStore.ts`, restricted to the fields
the claims are about. -/
structure AppState where
  processedImage : Option String
  maskImage : Option String
  brushSize : Rat
  brushMode : BrushMode
  zoom : Rat
  panX : Rat
  panY : Rat
  history : List String
  historyIndex : Int
deriving DecidableEq, Repr

/-- The store's initial state (`useAppStore.ts`, creation object). -/
def initialState : AppState :=
  { processedImage := none
    maskImage := none
    brushSize := 50
    brushMode := BrushMode.erase
    zoom := 1
    panX := 0
    panY := 0
    history := []
    historyIndex := -1 }

/-- `setBrushSize: (size) => set({ brushSize: size })` — stores the raw
argument, no clamping in the store. -/
def setBrushSize (size : Rat) (s : AppState) : AppState :=
  { s with brushSize := size }

/-- `setBrushMode: (mode) => set({ brushMode: mode })`. -/
def setBrushMode (mode : BrushMode) (s : AppState) : AppState :=
  { s with brushMode := mode }

/-- `setZoom: (zoom) => set({ zoom })` — stores the raw argument, no
clamping in the store. -/
def setZoom (zoom : Rat) (s : AppState) : AppState :=
  { s with zoom := zoom }

/-- `setPan: (pan) => set({ pan })`. -/
def setPan (x y : Rat) (s : AppState) : AppState :=
  { s with panX := x, panY := y }

/-- JavaScript truthiness of a `string | null` value: `null` and the empty
string are falsy. -/
def strTruthy : Option String → Bool
  | none => false
  | some str => str ≠ ""

/-- `setProcessedImage` (`useAppStore.ts` lines 73-79): sets
`processedImage` and `maskImage`, then — only when the argument is truthy —
initializes the history to the one-element list holding the image with
active index 0. -/
def setProcessedImage (image : Option String) (s : AppState) : AppState :=
  let s1 := { s with processedImage := image, maskImage := image }
  match image with
  | some img => if img ≠ "" then { s1 with history := [img], historyIndex := 0 } else s1
  | none => s1

/-- `addToHistory` (`useAppStore.ts` lines 90-107):
`history.slice(0, historyIndex + 1)`, push the snapshot, drop the head if
the length exceeds 10, set the index to the last entry and surface the
snapshot as `maskImage`/`processedImage`.

`slice(0, e)` for `e ≥ 0` is `List.take e`; `historyIndex ≥ -1` in every
reachable state, so `(historyIndex + 1).toNat` is exact. `shift()` is
`List.tail`. -/
def addToHistory (m : String) (s : AppState) : AppState :=
  let newHistory := s.history.take (s.historyIndex + 1).toNat ++ [m]
  let newHistory := if newHistory.length > 10 then newHistory.tail else newHistory
  { s with
      history := newHistory
      historyIndex := (newHistory.length : Int) - 1
      maskImage := some m
      processedImage := some m }

/-- `undo` (`useAppStore.ts` lines 109-120): when `historyIndex > 0`,
decrement the index and surface that entry; otherwise do nothing. -/
def undo (s : AppState) : AppState :=
  if s.historyIndex > 0 then
    let newIndex := s.historyIndex - 1
    let prevImage := s.history[newIndex.toNat]?
    { s with historyIndex := newIndex, maskImage := prevImage, processedImage := prevImage }
  else s

/-- `redo` (`useAppStore.ts` lines 122-133): when the index is strictly
before the last entry, increment it and surface that entry; otherwise do
nothing. -/
def redo (s : AppState) : AppState :=
  if s.historyIndex < (s.history.length : Int) - 1 then
    let newIndex := s.historyIndex + 1
    let nextImage := s.history[newIndex.toNat]?
    { s with historyIndex := newIndex, maskImage := nextImage, processedImage := nextImage }
  else s

/-- A history operation: the three store actions that touch the history. -/
inductive HistOp
  | commit (m : String)
  | undo
  | redo

/-- Interpret one history operation on the store. -/
def applyHistOp : HistOp → AppState → AppState
  | HistOp.commit m, s => addToHistory m s
  | HistOp.undo, s => undo s
  | HistOp.redo, s => redo s

/-- Run a sequence of history operations left to right. -/
def runOps (ops : List HistOp) (s : AppState) : AppState :=
  ops.foldl (fun st op => applyHistOp op st) s

/-- The history invariant of the store: depth at most 10, and whenever the
history is non-empty the active index addresses a valid entry. The empty
history carries index `-1` (the store's initial and reset value). -/
def HistInv (s : AppState) : Prop :=
  s.history.length ≤ 10 ∧
    (if s.history.isEmpty then s.historyIndex = -1
     else 0 ≤ s.historyIndex ∧ s.historyIndex < (s.history.length : Int))

instance (s : AppState) : Decidable (HistInv s) := by
  unfold HistInv; infer_instance

/-! ## CanvasViewer: input handlers -/

/-- The fields of a browser `KeyboardEvent` that `handleKeyDown` reads. -/
structure KeyEvent where
  key : String
  ctrlKey : Bool
  metaKey : Bool
  shiftKey : Bool
deriving DecidableEq, Repr

/-- `handleKeyDown` (`CanvasViewer.tsx` lines 323-339): bracket keys step
the brush size by 10 with clamping done here (in the caller, via
`Math.max`/`Math.min`), `e`/`r` switch the mode, and Ctrl/Meta+`z`
dispatches to `redo` when Shift is held, `undo` otherwise. -/
def handleKeyDown (ev : KeyEvent) (s : AppState) : AppState :=
  if ev.key = "[" then setBrushSize (max (s.brushSize - 10) 10) s
  else if ev.key = "]" then setBrushSize (min (s.brushSize + 10) 200) s
  else if ev.key = "e" then setBrushMode BrushMode.erase s
  else if ev.key = "r" then setBrushMode BrushMode.restore s
  else if (ev.ctrlKey || ev.metaKey) && ev.key = "z" then
    if ev.shiftKey then redo s else undo s
  else s

/-- The fields of a browser `WheelEvent` that `handleWheel` reads. -/
structure WheelEvent where
  ctrlKey : Bool
  metaKey : Bool
  deltaY : Rat
deriving DecidableEq, Repr

/-- `handleWheel` (`CanvasViewer.tsx` lines 346-353): with Ctrl or Meta
held, multiply the zoom by 0.9 (`deltaY > 0`) or 1.1 (otherwise) and clamp
the product to `[0.1, 5]`; without the modifier the event does nothing. -/
def handleWheel (ev : WheelEvent) (s : AppState) : AppState :=
  if ev.ctrlKey || ev.metaKey then
    let delta : Rat := if 0 < ev.deltaY then 0.9 else 1.1
    setZoom (min (max (s.zoom * delta) 0.1) 5) s
  else s

/-- Toolbar "decrease brush size" button (`CanvasViewer.tsx` line 412). -/
def brushMinusClick (s : AppState) : AppState :=
  setBrushSize (max (s.brushSize - 10) 10) s

/-- Toolbar "increase brush size" button (`CanvasViewer.tsx` line 420). -/
def brushPlusClick (s : AppState) : AppState :=
  setBrushSize (min (s.brushSize + 10) 200) s

/-- Toolbar "zoom out" button (`CanvasViewer.tsx` line 482). -/
def zoomOutClick (s : AppState) : AppState :=
  setZoom (max (s.zoom - 0.1) 0.1) s

/-- Toolbar "zoom in" button (`CanvasViewer.tsx` line 486). -/
def zoomInClick (s : AppState) : AppState :=
  setZoom (min (s.zoom + 0.1) 5) s

/-! ## CanvasViewer: render -/

/-- The three layers `render` can draw. -/
inductive Layer
  | ghost
  | edited
  | selection
deriving DecidableEq, Repr

/-- One `ctx.drawImage` call issued by `render`: which source layer is
drawn, the `globalAlpha` in force, and the `ctx.filter` opacity when one is
set. -/
structure DrawOp where
  layer : Layer
  globalAlpha : Rat
  filterOpacity : Option Rat
deriving DecidableEq, Repr

/-- The ghost draw call: `globalAlpha = 0.3` and `filter = opacity(0.3)`
(`CanvasViewer.tsx` lines 142-145). -/
def ghostOp : DrawOp := ⟨Layer.ghost, 0.3, some 0.3⟩

/-- The edited-raster draw call, at default alpha 1 and no filter
(`CanvasViewer.tsx` line 151). -/
def editedOp : DrawOp := ⟨Layer.edited, 1, none⟩

/-- The selection-overlay draw call at `globalAlpha = 0.4`
(`CanvasViewer.tsx` lines 155-157). -/
def selectionOp : DrawOp := ⟨Layer.selection, 0.4, none⟩

/-- `render` (`CanvasViewer.tsx` lines 124-161) as the ordered list of draw
calls it issues: the ghost layer first and only in restore mode, then the
edited raster, then — when the selection canvas exists and a drag is in
progress — the selection overlay. -/
def render (mode : BrushMode) (scPresent isDragging : Bool) : List DrawOp :=
  (if mode = BrushMode.restore then [ghostOp] else []) ++
    [editedOp] ++
    (if scPresent && isDragging then [selectionOp] else [])

/-! ## CanvasViewer: smart selection resolver -/

/-- The square of `colorDistance` (`CanvasViewer.tsx` lines 169-171); the
source compares `Math.sqrt` of this sum against the tolerance 80, which is
equivalent to comparing this sum against 6400. -/
def colorDistSq (r1 g1 b1 r2 g2 b2 : Rat) : Rat :=
  (r1 - r2) ^ 2 + (g1 - g2) ^ 2 + (b1 - b2) ^ 2

/-- Number of marked pixels: those whose selection-buffer alpha is positive
(the `count` accumulator of `applySmartSelection`). -/
def markedCount (n : Nat) (sel : Nat → Pixel) : Nat :=
  ∑ i in Finset.range n, if 0 < (sel i).a then 1 else 0

/-- Sum of one color channel of the original over the marked pixels (the
`totalR`/`totalG`/`totalB` accumulators of `applySmartSelection`). -/
def totalChan (n : Nat) (chan : Pixel → Nat) (orig sel : Nat → Pixel) : Nat :=
  ∑ i in Finset.range n, if 0 < (sel i).a then chan (orig i) else 0

/-- The write `applySmartSelection` performs on an in-tolerance marked
pixel: erase sets the edited pixel's alpha to 0; restore copies RGB from
the original and sets alpha to 255. -/
def editPixel (mode : BrushMode) (o e : Pixel) : Pixel :=
  match mode with
  | BrushMode.erase => { e with a := 0 }
  | BrushMode.restore => { r := o.r, g := o.g, b := o.b, a := 255 }

/-- Result of `applySmartSelection`: the edited raster after
`putImageData`, the selection buffer after `clearRect`, and whether a
snapshot was committed to the history. -/
structure ResolveOut where
  edited : Nat → Pixel
  selection : Nat → Pixel
  committed : Bool

/-- Marked-and-within-tolerance test of the resolve loop at pixel `i`:
selection alpha positive and squared RGB distance of the original color
from the average strictly below `80² = 6400`. -/
def hitsPixel (n : Nat) (orig sel : Nat → Pixel) (i : Nat) : Prop :=
  let count := markedCount n sel
  0 < (sel i).a ∧
    colorDistSq ((orig i).r : Rat) ((orig i).g : Rat) ((orig i).b : Rat)
      ((totalChan n Pixel.r orig sel : Rat) / count)
      ((totalChan n Pixel.g orig sel : Rat) / count)
      ((totalChan n Pixel.b orig sel : Rat) / count) < 6400

instance (n : Nat) (orig sel : Nat → Pixel) (i : Nat) :
    Decidable (hitsPixel n orig sel i) := by
  unfold hitsPixel; infer_instance

/-- `applySmartSelection` (`CanvasViewer.tsx` lines 198-282), acting on the
three pixel buffers of `n` flattened pixels. If no pixel is marked it
returns everything unchanged with no commit (`if (count === 0) return`).
Otherwise every marked pixel whose original color is within tolerance of
the marked-region average gets `editPixel` applied in the edited buffer,
the selection buffer is cleared to transparent black (`clearRect`), and a
commit is signalled (`addToHistory(osc.toDataURL())`). -/
def applySmartSelection (mode : BrushMode) (n : Nat) (orig edited sel : Nat → Pixel) :
    ResolveOut :=
  let count := markedCount n sel
  if count = 0 then ⟨edited, sel, false⟩
  else
    ⟨fun i =>
        if i < n ∧ hitsPixel n orig sel i then editPixel mode (orig i) (edited i)
        else edited i,
      fun i => if i < n then ⟨0, 0, 0, 0⟩ else sel i,
      true⟩

/-- The mouse-up path of a stroke (`handleMouseUp` →
`applySmartSelection`): run the resolver and, exactly when it committed,
push the serialized edited raster onto the history. `encode` stands for
`osc.toDataURL()`. -/
def strokeRelease (encode : (Nat → Pixel) → String) (mode : BrushMode) (n : Nat)
    (orig edited sel : Nat → Pixel) (s : AppState) : ResolveOut × AppState :=
  let out := applySmartSelection mode n orig edited sel
  (out, if out.committed then addToHistory (encode out.edited) s else s)

/-- A small concrete store state with a one-entry history and a valid
active index, used to evaluate the history theorems on explicit inputs. -/
def sampleState : AppState :=
  { processedImage := some "a"
    maskImage := some "a"
    brushSize := 50
    brushMode := BrushMode.erase
    zoom := 1
    panX := 0
    panY := 0
    history := ["a"]
    historyIndex := 0 }

/-! ## Theorems -/

/-- Justification of the tolerance embedding: for the fixed tolerance 80,
`Math.sqrt d < 80` on the sum of squares `d` is the same comparison as
`d < 6400`, so `colorDistSq … < 6400` embeds the source's
`colorDistance(…) < tolerance`. -/
theorem sqrt_lt_tol (q : Rat) : Real.sqrt (q : Real) < 80 ↔ (q : Real) < 6400 := by
  rw [show (6400 : Real) = 80 ^ 2 by norm_num]
  exact Real.sqrt_lt' (by norm_num)

/-- C10 counterexample: `setProcessedImage` guards the history
initialization with JS truthiness, so the non-null empty-string image
leaves the history empty instead of `[""]` with index 0. -/
theorem setProcessedImage_empty_string_no_history :
    (setProcessedImage (some "") initialState).history = [] ∧
      (setProcessedImage (some "") initialState).historyIndex = -1 ∧
      (setProcessedImage (some "") initialState).history ≠ [""] := by
  refine ⟨rfl, rfl, by decide⟩

/-- C10 (amended): for every non-null, non-empty image, `setProcessedImage`
initializes the history to exactly the one-element sequence holding that
image with active index 0, and sets `maskImage` (and `processedImage`) to
that image. -/
theorem setProcessedImage_initializes_history (img : String) (s : AppState)
    (h : img ≠ "") :
    (setProcessedImage (some img) s).history = [img] ∧
      (setProcessedImage (some img) s).historyIndex = 0 ∧
      (setProcessedImage (some img) s).maskImage = some img ∧
      (setProcessedImage (some img) s).processedImage = some img := by
  simp [setProcessedImage, h]

/-- Witness for `setProcessedImage_initializes_history` at the image
`"a"`. -/
theorem setProcessedImage_initializes_history_witness :
    ("a" : String) ≠ "" ∧
      ((setProcessedImage (some "a") initialState).history = ["a"] ∧
        (setProcessedImage (some "a") initialState).historyIndex = 0 ∧
        (setProcessedImage (some "a") initialState).maskImage = some "a" ∧
        (setProcessedImage (some "a") initialState).processedImage = some "a") :=
  ⟨by decide, setProcessedImage_initializes_history "a" initialState (by decide)⟩

/-- C6 counterexample: the store setters clamp nothing — `setBrushSize 500`
stores 500 (outside `[10, 200]`) and `setZoom 50` stores 50 (outside
`[0.1, 5]`). -/
theorem setters_do_not_clamp :
    (setBrushSize 500 initialState).brushSize = 500 ∧
      ¬ (setBrushSize 500 initialState).brushSize ≤ 200 ∧
      (setZoom 50 initialState).zoom = 50 ∧
      ¬ (setZoom 50 initialState).zoom ≤ 5 := by
  refine ⟨rfl, by norm_num [setBrushSize, initialState], rfl,
    by norm_num [setZoom, initialState]⟩

/-- `undo` never touches the brush size. -/
theorem undo_brushSize (s : AppState) : (undo s).brushSize = s.brushSize := by
  unfold undo; split <;> rfl

/-- `redo` never touches the brush size. -/
theorem redo_brushSize (s : AppState) : (redo s).brushSize = s.brushSize := by
  unfold redo; split <;> rfl

/-- C6 (amended): `setBrushSize` and `setZoom` store their argument
unmodified (never rejected, never clamped in the store); the `[10, 200]`
and `[0.1, 5]` bounds are enforced by the mutation call sites — the
keyboard handler, the toolbar buttons and the wheel handler clamp before
calling the setters — so from an in-range state each of those operations
leaves `brushSize` in `[10, 200]` and `zoom` in `[0.1, 5]`. -/
theorem brush_zoom_clamped_by_callers (v : Rat) (s : AppState)
    (ev : KeyEvent) (wev : WheelEvent)
    (hb1 : 10 ≤ s.brushSize) (hb2 : s.brushSize ≤ 200)
    (hz1 : 0.1 ≤ s.zoom) (hz2 : s.zoom ≤ 5) :
    (setBrushSize v s).brushSize = v ∧ (setZoom v s).zoom = v ∧
      (10 ≤ (handleKeyDown ev s).brushSize ∧ (handleKeyDown ev s).brushSize ≤ 200) ∧
      (10 ≤ (brushMinusClick s).brushSize ∧ (brushMinusClick s).brushSize ≤ 200) ∧
      (10 ≤ (brushPlusClick s).brushSize ∧ (brushPlusClick s).brushSize ≤ 200) ∧
      (0.1 ≤ (handleWheel wev s).zoom ∧ (handleWheel wev s).zoom ≤ 5) ∧
      (0.1 ≤ (zoomOutClick s).zoom ∧ (zoomOutClick s).zoom ≤ 5) ∧
      (0.1 ≤ (zoomInClick s).zoom ∧ (zoomInClick s).zoom ≤ 5) := by
  have hminus : 10 ≤ max (s.brushSize - 10) 10 ∧ max (s.brushSize - 10) 10 ≤ 200 :=
    ⟨le_max_right _ _, max_le (by linarith) (by norm_num)⟩
  have hplus : 10 ≤ min (s.brushSize + 10) 200 ∧ min (s.brushSize + 10) 200 ≤ 200 :=
    ⟨le_min (by linarith) (by norm_num), min_le_right _ _⟩
  refine ⟨rfl, rfl, ?_, ?_, ?_, ?_, ?_, ?_⟩
  · unfold handleKeyDown
    split
    · exact hminus
    split
    · exact hplus
    split
    · exact ⟨hb1, hb2⟩
    split
    · exact ⟨hb1, hb2⟩
    split
    · split
      · simpa [redo_brushSize] using ⟨hb1, hb2⟩
      · simpa [undo_brushSize] using ⟨hb1, hb2⟩
    · exact ⟨hb1, hb2⟩
  · exact hminus
  · exact hplus
  · unfold handleWheel
    split
    · exact ⟨le_min (le_max_right _ _) (by norm_num), min_le_right _ _⟩
    · exact ⟨hz1, hz2⟩
  · exact ⟨le_max_right _ _, max_le (by linarith) (by norm_num)⟩
  · exact ⟨le_min (by linarith) (by norm_num), min_le_right _ _⟩

/-- Witness for `brush_zoom_clamped_by_callers` at the store's initial
state, the value 42, a `[` keydown and a modifier-held wheel tick. -/
theorem brush_zoom_clamped_by_callers_witness :
    (10 ≤ initialState.brushSize ∧ initialState.brushSize ≤ 200 ∧
        0.1 ≤ initialState.zoom ∧ initialState.zoom ≤ 5) ∧
      ((setBrushSize 42 initialState).brushSize = 42 ∧
        (setZoom 42 initialState).zoom = 42 ∧
        (10 ≤ (handleKeyDown ⟨"[", false, false, false⟩ initialState).brushSize ∧
          (handleKeyDown ⟨"[", false, false, false⟩ initialState).brushSize ≤ 200) ∧
        (10 ≤ (brushMinusClick initialState).brushSize ∧
          (brushMinusClick initialState).brushSize ≤ 200) ∧
        (10 ≤ (brushPlusClick initialState).brushSize ∧
          (brushPlusClick initialState).brushSize ≤ 200) ∧
        (0.1 ≤ (handleWheel ⟨true, false, 3⟩ initialState).zoom ∧
          (handleWheel ⟨true, false, 3⟩ initialState).zoom ≤ 5) ∧
        (0.1 ≤ (zoomOutClick initialState).zoom ∧
          (zoomOutClick initialState).zoom ≤ 5) ∧
        (0.1 ≤ (zoomInClick initialState).zoom ∧
          (zoomInClick initialState).zoom ≤ 5)) :=
  ⟨by norm_num [initialState], brush_zoom_clamped_by_callers 42 initialState
    ⟨"[", false, false, false⟩ ⟨true, false, 3⟩ (by norm_num [initialState])
    (by norm_num [initialState]) (by norm_num [initialState]) (by norm_num [initialState])⟩

/-- C8: every keydown event carrying Ctrl or Meta together with the `z` key
dispatches to `redo` when Shift is held and to `undo` otherwise. -/
theorem modifier_z_dispatches_history (ev : KeyEvent) (s : AppState)
    (hmod : ev.ctrlKey = true ∨ ev.metaKey = true) (hkey : ev.key = "z") :
    handleKeyDown ev s = if ev.shiftKey then redo s else undo s := by
  rcases hmod with h | h <;> simp [handleKeyDown, hkey, h]

/-- Witness for `modifier_z_dispatches_history`: Ctrl+Shift+`z` at the
initial state invokes `redo`. -/
theorem modifier_z_dispatches_history_witness :
    (((⟨"z", true, false, true⟩ : KeyEvent).ctrlKey = true ∨
        (⟨"z", true, false, true⟩ : KeyEvent).metaKey = true) ∧
      (⟨"z", true, false, true⟩ : KeyEvent).key = "z") ∧
      handleKeyDown ⟨"z", true, false, true⟩ initialState = redo initialState :=
  ⟨⟨Or.inl rfl, rfl⟩, by
    simpa using modifier_z_dispatches_history ⟨"z", true, false, true⟩ initialState
      (Or.inl rfl) rfl⟩

/-- In-range preservation of the zoom by a single wheel event: with the
modifier held the zoom is clamped into `[0.1, 5]`, without it the zoom is
untouched. -/
theorem handleWheel_zoom_range (ev : WheelEvent) (s : AppState)
    (h1 : 0.1 ≤ s.zoom) (h2 : s.zoom ≤ 5) :
    0.1 ≤ (handleWheel ev s).zoom ∧ (handleWheel ev s).zoom ≤ 5 := by
  unfold handleWheel
  split
  · exact ⟨le_min (le_max_right _ _) (by norm_num), min_le_right _ _⟩
  · exact ⟨h1, h2⟩

/-- C9: for every wheel event with Ctrl or Meta held, the new zoom is the
old zoom multiplied by 0.9 (`deltaY > 0`) or 1.1 (`deltaY ≤ 0`), clamped to
`[0.1, 5]`; and after any sequence of wheel events starting from an
in-range zoom, the zoom stays within `[0.1, 5]`. -/
theorem wheel_zoom_multiplicative_clamped (ev : WheelEvent) (s : AppState)
    (evs : List WheelEvent)
    (hmod : ev.ctrlKey = true ∨ ev.metaKey = true)
    (h1 : 0.1 ≤ s.zoom) (h2 : s.zoom ≤ 5) :
    (handleWheel ev s).zoom =
        min (max (s.zoom * (if 0 < ev.deltaY then 0.9 else 1.1)) 0.1) 5 ∧
      0.1 ≤ (evs.foldl (fun t e => handleWheel e t) s).zoom ∧
      (evs.foldl (fun t e => handleWheel e t) s).zoom ≤ 5 := by
  constructor
  · rcases hmod with h | h <;> simp [handleWheel, setZoom, h]
  · clear hmod
    induction evs generalizing s with
    | nil => exact ⟨h1, h2⟩
    | cons e es ih =>
        have h := handleWheel_zoom_range e s h1 h2
        exact ih _ h.1 h.2

/-- Witness for `wheel_zoom_multiplicative_clamped`: a Ctrl-held zoom-out
tick from the initial state, followed by a zoom-in and a zoom-out tick. -/
theorem wheel_zoom_multiplicative_clamped_witness :
    (((⟨true, false, 3⟩ : WheelEvent).ctrlKey = true ∨
        (⟨true, false, 3⟩ : WheelEvent).metaKey = true) ∧
      0.1 ≤ initialState.zoom ∧ initialState.zoom ≤ 5) ∧
      ((handleWheel ⟨true, false, 3⟩ initialState).zoom =
          min (max (initialState.zoom *
            (if 0 < (⟨true, false, 3⟩ : WheelEvent).deltaY then 0.9 else 1.1)) 0.1) 5 ∧
        0.1 ≤ (([⟨true, false, -2⟩, ⟨false, true, 3⟩] :
            List WheelEvent).foldl (fun t e => handleWheel e t) initialState).zoom ∧
        (([⟨true, false, -2⟩, ⟨false, true, 3⟩] :
            List WheelEvent).foldl (fun t e => handleWheel e t) initialState).zoom ≤ 5) :=
  ⟨⟨Or.inl rfl, by norm_num [initialState], by norm_num [initialState]⟩,
    wheel_zoom_multiplicative_clamped ⟨true, false, 3⟩ initialState
      [⟨true, false, -2⟩, ⟨false, true, 3⟩] (Or.inl rfl)
      (by norm_num [initialState]) (by norm_num [initialState])⟩

/-- C7: with the selection canvas present, the ghost draw (original at
`globalAlpha` 0.3) opens the draw list exactly in restore mode and no ghost
draw happens in erase mode; the edited raster is drawn exactly once, at
full opacity, right after the optional ghost; and the selection overlay at
opacity 0.4 closes the list exactly when a drag is active. -/
theorem render_layer_order (mode : BrushMode) (drag : Bool) :
    (ghostOp ∈ render mode true drag ↔ mode = BrushMode.restore) ∧
      (mode = BrushMode.restore →
        (render mode true drag).head? = some ghostOp ∧
          (render mode true drag)[1]? = some editedOp) ∧
      (mode = BrushMode.erase →
        (∀ op ∈ render mode true drag, op.layer ≠ Layer.ghost) ∧
          (render mode true drag).head? = some editedOp) ∧
      ghostOp.globalAlpha = 0.3 ∧
      editedOp ∈ render mode true drag ∧ editedOp.globalAlpha = 1 ∧
      (selectionOp ∈ render mode true drag ↔ drag = true) ∧
      (drag = true → (render mode true drag).getLast? = some selectionOp) ∧
      selectionOp.globalAlpha = 0.4 ∧
      (drag = false → ∀ op ∈ render mode true drag, op.layer ≠ Layer.selection) := by
  cases mode <;> cases drag <;>
    simp [render, ghostOp, editedOp, selectionOp, List.getLast?]

/-- C5: a stroke release whose selection buffer holds no marked pixel
(every alpha is 0, so `markedCount` is 0) is a no-op — the edited raster
and selection buffer come back unchanged, nothing is committed, and the
store (history and active index included) is untouched. -/
theorem empty_selection_noop (encode : (Nat → Pixel) → String) (mode : BrushMode)
    (n : Nat) (orig edited sel : Nat → Pixel) (s : AppState)
    (h : markedCount n sel = 0) :
    (strokeRelease encode mode n orig edited sel s).1.edited = edited ∧
      (strokeRelease encode mode n orig edited sel s).1.selection = sel ∧
      (strokeRelease encode mode n orig edited sel s).1.committed = false ∧
      (strokeRelease encode mode n orig edited sel s).2 = s := by
  simp [strokeRelease, applySmartSelection, h]

/-- Witness for `empty_selection_noop`: a one-pixel raster whose selection
buffer is fully transparent. -/
theorem empty_selection_noop_witness :
    markedCount 1 (fun _ => ⟨0, 0, 0, 0⟩) = 0 ∧
      ((strokeRelease (fun _ => "snap") BrushMode.erase 1 (fun _ => ⟨9, 9, 9, 255⟩)
          (fun _ => ⟨1, 2, 3, 200⟩) (fun _ => ⟨0, 0, 0, 0⟩) initialState).1.edited =
          (fun _ => ⟨1, 2, 3, 200⟩) ∧
        (strokeRelease (fun _ => "snap") BrushMode.erase 1 (fun _ => ⟨9, 9, 9, 255⟩)
          (fun _ => ⟨1, 2, 3, 200⟩) (fun _ => ⟨0, 0, 0, 0⟩) initialState).1.selection =
          (fun _ => ⟨0, 0, 0, 0⟩) ∧
        (strokeRelease (fun _ => "snap") BrushMode.erase 1 (fun _ => ⟨9, 9, 9, 255⟩)
          (fun _ => ⟨1, 2, 3, 200⟩) (fun _ => ⟨0, 0, 0, 0⟩) initialState).1.committed =
          false ∧
        (strokeRelease (fun _ => "snap") BrushMode.erase 1 (fun _ => ⟨9, 9, 9, 255⟩)
          (fun _ => ⟨1, 2, 3, 200⟩) (fun _ => ⟨0, 0, 0, 0⟩) initialState).2 =
          initialState) :=
  ⟨by decide, empty_selection_noop (fun _ => "snap") BrushMode.erase 1
    (fun _ => ⟨9, 9, 9, 255⟩) (fun _ => ⟨1, 2, 3, 200⟩) (fun _ => ⟨0, 0, 0, 0⟩)
    initialState (by decide)⟩

/-- Structure of a committed state: `addToHistory` always produces a
history of the form `B ++ [m]` with the active index addressing the final
snapshot `m`, which is also surfaced as `maskImage` and `processedImage`;
every other field is untouched. -/
theorem addToHistory_shape (m : String) (s : AppState) :
    ∃ B : List String,
      addToHistory m s =
        { s with history := B ++ [m], historyIndex := (B.length : Int),
                 maskImage := some m, processedImage := some m } := by
  simp only [addToHistory]
  rcases ht : s.history.take (s.historyIndex + 1).toNat with _ | ⟨a, as⟩
  · exact ⟨[], by simp⟩
  · split
    · exact ⟨as, by simp⟩
    · exact ⟨a :: as, by simp⟩

/-- C4: after a commit, `undo` followed by `redo` restores the post-commit
state bit-for-bit (also when the commit landed on an empty history, where
both are no-ops); and when another commit intervenes between the `undo` and
the `redo`, that `redo` is a no-op, because a commit always parks the
active index on the last entry. -/
theorem commit_undo_redo_roundtrip (s : AppState) (m m2 : String)
    (h : -1 ≤ s.historyIndex) :
    redo (undo (addToHistory m s)) = addToHistory m s ∧
      redo (addToHistory m2 (undo (addToHistory m s))) =
        addToHistory m2 (undo (addToHistory m s)) := by
  constructor
  · obtain ⟨B, hB⟩ := addToHistory_shape m s
    rw [hB]
    rcases B with _ | ⟨b, bs⟩
    · simp [undo, redo]
    · simp [undo, redo, List.getElem?_append, List.getElem?_concat_length]
  · obtain ⟨B, hB⟩ := addToHistory_shape m2 (undo (addToHistory m s))
    rw [hB]
    simp [redo]

/-- Unfolding of `undo` when the active index is positive. -/
theorem undo_of_pos (t : AppState) (h : 0 < t.historyIndex) :
    undo t = { t with historyIndex := t.historyIndex - 1,
                      maskImage := t.history[(t.historyIndex - 1).toNat]?,
                      processedImage := t.history[(t.historyIndex - 1).toNat]? } := by
  simp [undo, h]

/-- After committing onto a state with a valid active index, the index is
positive and the entry just before it is the entry that was active before
the commit — also across the FIFO eviction of the oldest entry. -/
theorem addToHistory_prev_entry (m : String) (s : AppState)
    (h0 : 0 ≤ s.historyIndex) (h1 : s.historyIndex < (s.history.length : Int)) :
    0 < (addToHistory m s).historyIndex ∧
      (addToHistory m s).history[((addToHistory m s).historyIndex - 1).toNat]? =
        s.history[s.historyIndex.toNat]? := by
  have hnat : (s.historyIndex + 1).toNat = s.historyIndex.toNat + 1 := by omega
  set i := s.historyIndex.toNat with hidef
  have hi : i < s.history.length := by omega
  have hALen : (s.history.take (i + 1)).length = i + 1 := by
    rw [List.length_take]; omega
  have hhist : s.history[i]? = (s.history.take (i + 1))[i]? :=
    (List.getElem?_take_of_lt (Nat.lt_succ_self i)).symm
  simp only [addToHistory, hnat]
  rcases ht : s.history.take (i + 1) with _ | ⟨a, as⟩
  · rw [ht] at hALen; simp at hALen
  · rw [ht] at hALen
    simp only [List.length_cons, Nat.add_right_cancel_iff] at hALen
    rw [ht] at hhist
    split
    · next hc =>
        simp only [List.length_cons, List.length_append, List.length_nil] at hc
        simp only [List.cons_append, List.tail_cons, List.length_append,
          List.length_cons, List.length_nil]
        have hidx : ((as.length + 1 : Nat) : Int) - 1 - 1 = ((as.length - 1 : Nat) : Int) := by
          omega
        constructor
        · omega
        · rw [hidx, Int.toNat_natCast,
            List.getElem?_append_left (by omega : as.length - 1 < as.length), hhist, hALen]
          conv_rhs => rw [show i = (i - 1) + 1 by omega]
          rw [List.getElem?_cons_succ]
    · next hc =>
        simp only [List.length_cons, List.length_append, List.length_nil] at hc
        simp only [List.cons_append, List.length_append, List.length_cons, List.length_nil]
        have hidx : ((as.length + 1 + 1 : Nat) : Int) - 1 - 1 = ((as.length : Nat) : Int) := by
          omega
        constructor
        · omega
        · rw [show ((as.length + 1 + 1 : Nat) : Int) - 1 - 1 = ((as.length : Nat) : Int) by omega,
            Int.toNat_natCast, hALen, hhist, ← List.cons_append,
            List.getElem?_append_left (by simp [hALen] : i < (a :: as).length)]

/-- C3: from any state whose active index addresses a valid history entry,
committing a snapshot and then undoing makes the active snapshot —
`maskImage`, `processedImage` and the history entry at the active index —
bit-identical to the entry that was active immediately before the commit. -/
theorem commit_then_undo_restores_previous (s : AppState) (m : String)
    (h0 : 0 ≤ s.historyIndex) (h1 : s.historyIndex < (s.history.length : Int)) :
    (undo (addToHistory m s)).maskImage = s.history[s.historyIndex.toNat]? ∧
      (undo (addToHistory m s)).processedImage = s.history[s.historyIndex.toNat]? ∧
      (undo (addToHistory m s)).history[(undo (addToHistory m s)).historyIndex.toNat]? =
        s.history[s.historyIndex.toNat]? := by
  obtain ⟨hpos, hentry⟩ := addToHistory_prev_entry m s h0 h1
  rw [undo_of_pos _ hpos]
  exact ⟨hentry, hentry, hentry⟩

/-- Witness for `commit_then_undo_restores_previous` at a one-entry
history. -/
theorem commit_then_undo_restores_previous_witness :
    ((0 : Int) ≤ sampleState.historyIndex ∧
        sampleState.historyIndex < (sampleState.history.length : Int)) ∧
      ((undo (addToHistory "b" sampleState)).maskImage =
          sampleState.history[sampleState.historyIndex.toNat]? ∧
        (undo (addToHistory "b" sampleState)).processedImage =
          sampleState.history[sampleState.historyIndex.toNat]? ∧
        (undo (addToHistory "b" sampleState)).history[
            (undo (addToHistory "b" sampleState)).historyIndex.toNat]? =
          sampleState.history[sampleState.historyIndex.toNat]?) :=
  ⟨⟨by decide, by decide⟩,
    commit_then_undo_restores_previous sampleState "b" (by decide) (by decide)⟩

/-- Witness for `commit_undo_redo_roundtrip` at the initial state. -/
theorem commit_undo_redo_roundtrip_witness :
    (-1 : Int) ≤ initialState.historyIndex ∧
      (redo (undo (addToHistory "a" initialState)) = addToHistory "a" initialState ∧
        redo (addToHistory "b" (undo (addToHistory "a" initialState))) =
          addToHistory "b" (undo (addToHistory "a" initialState))) :=
  ⟨by decide, commit_undo_redo_roundtrip initialState "a" "b" (by decide)⟩

/-- Committing from a depth-10 history never lets the depth pass 10. -/
theorem addToHistory_length_le (m : String) (s : AppState)
    (h : s.history.length ≤ 10) :
    (addToHistory m s).history.length ≤ 10 := by
  simp only [addToHistory]
  split
  · next hc =>
      simp only [List.length_tail, List.length_append, List.length_cons,
        List.length_nil] at hc ⊢
      have : (s.history.take (s.historyIndex + 1).toNat).length ≤ 10 := by
        rw [List.length_take]; omega
      omega
  · next hc =>
      simp only [List.length_append] at hc ⊢
      omega

/-- `addToHistory` preserves the history invariant. -/
theorem histInv_addToHistory (m : String) (s : AppState) (h : HistInv s) :
    HistInv (addToHistory m s) := by
  obtain ⟨B, hB⟩ := addToHistory_shape m s
  unfold HistInv
  constructor
  · exact addToHistory_length_le m s h.1
  · rw [hB]
    simp

/-- `undo` preserves the history invariant. -/
theorem histInv_undo (s : AppState) (h : HistInv s) : HistInv (undo s) := by
  obtain ⟨hlen, hif⟩ := h
  unfold undo
  split
  · next hpos =>
      unfold HistInv
      by_cases he : s.history.isEmpty
      · simp [he] at hif ⊢
        omega
      · simp [he] at hif ⊢
        exact ⟨hlen, by omega, by omega⟩
  · next hpos => exact ⟨hlen, hif⟩

/-- `redo` preserves the history invariant. -/
theorem histInv_redo (s : AppState) (h : HistInv s) : HistInv (redo s) := by
  obtain ⟨hlen, hif⟩ := h
  unfold redo
  split
  · next hlt =>
      unfold HistInv
      by_cases he : s.history.isEmpty
      · rw [List.isEmpty_iff] at he
        rw [he] at hlt hif
        simp at hlt hif
        exact absurd hlt (by omega)
      · simp [he] at hif ⊢
        exact ⟨hlen, by omega, by omega⟩
  · next hlt => exact ⟨hlen, hif⟩

/-- Every history operation preserves the history invariant. -/
theorem histInv_applyHistOp (op : HistOp) (s : AppState) (h : HistInv s) :
    HistInv (applyHistOp op s) := by
  cases op with
  | commit m => exact histInv_addToHistory m s h
  | undo => exact histInv_undo s h
  | redo => exact histInv_redo s h

/-- C2: starting from any state satisfying the history invariant (the
initial state included), every sequence of commit/undo/redo operations
keeps the depth at 10 or less with a valid active index whenever the
history is non-empty; right after a commit the active index is the last
entry; and a commit from a full depth-10 history with the index at the end
evicts the oldest entry first. -/
theorem history_depth_bounded (s : AppState) (ops : List HistOp) (h : HistInv s) :
    HistInv (runOps ops s) ∧
      (∀ m, (addToHistory m s).historyIndex =
          ((addToHistory m s).history.length : Int) - 1) ∧
      (∀ m, s.history.length = 10 → s.historyIndex = 9 →
        (addToHistory m s).history = s.history.tail ++ [m]) := by
  refine ⟨?_, ?_, ?_⟩
  · unfold runOps
    induction ops generalizing s with
    | nil => exact h
    | cons op rest ih => exact ih _ (histInv_applyHistOp op s h)
  · intro m
    rfl
  · intro m h10 h9
    have htake : s.history.take (s.historyIndex + 1).toNat = s.history := by
      rw [h9]
      exact List.take_of_length_le (by omega)
    simp only [addToHistory, htake]
    rw [if_pos (by simp [h10])]
    rcases hh : s.history with _ | ⟨a, as⟩
    · rw [hh] at h10; simp at h10
    · simp

/-- Witness for `history_depth_bounded`: two commits and an undo from the
initial state. -/
theorem history_depth_bounded_witness :
    HistInv initialState ∧
      (HistInv (runOps [HistOp.commit "a", HistOp.commit "b", HistOp.undo] initialState) ∧
        (∀ m, (addToHistory m initialState).historyIndex =
            ((addToHistory m initialState).history.length : Int) - 1) ∧
        (∀ m, initialState.history.length = 10 → initialState.historyIndex = 9 →
          (addToHistory m initialState).history = initialState.history.tail ++ [m])) :=
  ⟨by decide,
    history_depth_bounded initialState [HistOp.commit "a", HistOp.commit "b", HistOp.undo]
      (by decide)⟩

/-- C1: when at least one pixel is marked, the resolver changes exactly the
marked pixels whose original color lies within Euclidean RGB distance 80 of
the arithmetic mean color of the original over the marked region — erase
drops their alpha to 0, restore copies their RGB from the original with
alpha 255 — while every other pixel of the edited raster keeps its
pre-resolve bits, the whole selection buffer is cleared to fully
transparent, and the result is committed. -/
theorem resolve_changes_exactly_tolerant_marked (mode : BrushMode) (n : Nat)
    (orig edited sel : Nat → Pixel) (h : markedCount n sel ≠ 0) :
    (∀ i, i < n → hitsPixel n orig sel i →
        (applySmartSelection mode n orig edited sel).edited i =
          editPixel mode (orig i) (edited i)) ∧
      (∀ i, i < n → ¬ hitsPixel n orig sel i →
        (applySmartSelection mode n orig edited sel).edited i = edited i) ∧
      (∀ i, n ≤ i →
        (applySmartSelection mode n orig edited sel).edited i = edited i) ∧
      (∀ i, i < n →
        (applySmartSelection mode n orig edited sel).selection i = ⟨0, 0, 0, 0⟩) ∧
      (applySmartSelection mode n orig edited sel).committed = true := by
  simp only [applySmartSelection, if_neg h]
  refine ⟨?_, ?_, ?_, ?_, trivial⟩
  · intro i hin hhit
    simp only [if_pos (And.intro hin hhit)]
  · intro i hin hmiss
    exact if_neg (fun hcon => hmiss hcon.2)
  · intro i hni
    exact if_neg (fun hcon => absurd hcon.1 (Nat.not_lt.mpr hni))
  · intro i hin
    exact if_pos hin

/-- Witness for `resolve_changes_exactly_tolerant_marked`: a single marked
pixel in erase mode. -/
theorem resolve_changes_exactly_tolerant_marked_witness :
    markedCount 1 (fun _ => ⟨255, 0, 0, 128⟩) ≠ 0 ∧
      ((∀ i, i < 1 → hitsPixel 1 (fun _ => ⟨10, 20, 30, 255⟩) (fun _ => ⟨255, 0, 0, 128⟩) i →
          (applySmartSelection BrushMode.erase 1 (fun _ => ⟨10, 20, 30, 255⟩)
              (fun _ => ⟨1, 2, 3, 200⟩) (fun _ => ⟨255, 0, 0, 128⟩)).edited i =
            editPixel BrushMode.erase ((fun _ => (⟨10, 20, 30, 255⟩ : Pixel)) i)
              ((fun _ => (⟨1, 2, 3, 200⟩ : Pixel)) i)) ∧
        (∀ i, i < 1 →
          ¬ hitsPixel 1 (fun _ => ⟨10, 20, 30, 255⟩) (fun _ => ⟨255, 0, 0, 128⟩) i →
          (applySmartSelection BrushMode.erase 1 (fun _ => ⟨10, 20, 30, 255⟩)
              (fun _ => ⟨1, 2, 3, 200⟩) (fun _ => ⟨255, 0, 0, 128⟩)).edited i =
            (fun _ => (⟨1, 2, 3, 200⟩ : Pixel)) i) ∧
        (∀ i, 1 ≤ i →
          (applySmartSelection BrushMode.erase 1 (fun _ => ⟨10, 20, 30, 255⟩)
              (fun _ => ⟨1, 2, 3, 200⟩) (fun _ => ⟨255, 0, 0, 128⟩)).edited i =
            (fun _ => (⟨1, 2, 3, 200⟩ : Pixel)) i) ∧
        (∀ i, i < 1 →
          (applySmartSelection BrushMode.erase 1 (fun _ => ⟨10, 20, 30, 255⟩)
              (fun _ => ⟨1, 2, 3, 200⟩) (fun _ => ⟨255, 0, 0, 128⟩)).selection i =
            ⟨0, 0, 0, 0⟩) ∧
        (applySmartSelection BrushMode.erase 1 (fun _ => ⟨10, 20, 30, 255⟩)
            (fun _ => ⟨1, 2, 3, 200⟩) (fun _ => ⟨255, 0, 0, 128⟩)).committed = true) :=
  ⟨by decide,
    resolve_changes_exactly_tolerant_marked BrushMode.erase 1 (fun _ => ⟨10, 20, 30, 255⟩)
      (fun _ => ⟨1, 2, 3, 200⟩) (fun _ => ⟨255, 0, 0, 128⟩) (by decide)⟩

end CutItOut
